import Mathlib

/-!
Verification development for the PixelTune playback-state and persistence
engine: a shallow embedding in Lean 4 of the playlist store
(`src/store/playerStore.ts`), the lyric-synchronisation stores
(`src/store/lyricStore.ts` and its refactored variant) and the LRC lyric
parser (`src/utils/lrcParser.ts`), together with theorems settling the
specification's claims about them.

Modelling conventions:
* JavaScript strings are modelled as `List Char` (`Str`), so that splitting,
  scanning and trimming can be reasoned about by structural induction.
* Times are represented in integer milliseconds embedded in `ℚ`: the source
  stores seconds as a float, but every fraction the timestamp regex admits
  is a whole number of milliseconds, and scaling by 1000 preserves every
  comparison the program makes, so lyric cue times are integer-valued
  rationals while arbitrary playback positions remain arbitrary rationals.
* `crypto.randomUUID()` and `URL.createObjectURL` produce opaque fresh
  tokens; both are modelled by natural-number tokens supplied by the caller
  (a song's object URL is represented by the same token as its id, since
  nothing in the code ever compares URLs).
* The `localforage` collection is modelled as the `saved` field of the store
  state (one fixed key), and the module-level `FileCache` object as an
  association list carried in the state.
-/

abbrev Str := List Char

/-! ## Lyric parser (`src/utils/lrcParser.ts`) -/

/-- One parsed lyric cue: `{ time: number, text: string }` (time in
milliseconds, see the module comment). -/
structure LyricLine where
  time : ℚ
  text : Str
deriving DecidableEq

instance : Inhabited LyricLine := ⟨⟨0, []⟩⟩

/-- Numeric value of a decimal digit character (its code point minus 48). -/
def digitVal (c : Char) : ℕ := c.toNat - 48

/-- Model of the optional fraction-plus-closing-bracket part
`(\.\d{2,3})?\]` of the timestamp regex, applied at the position right
after the two second digits.  Returns the fraction in milliseconds and the
characters after the `]`.  The three-digit alternative is tried before the
two-digit one, matching the greedy `{2,3}` quantifier. -/
def matchFrac : Str → Option (ℕ × Str)
  | '.' :: f1 :: f2 :: f3 :: ']' :: r =>
      if f1.isDigit && f2.isDigit && f3.isDigit then
        some (100 * digitVal f1 + 10 * digitVal f2 + digitVal f3, r)
      else if f1.isDigit && f2.isDigit && f3 = ']' then
        -- greedy match takes only two digits; the first `]` closes the tag
        some ((10 * digitVal f1 + digitVal f2) * 10, ']' :: r)
      else none
  | '.' :: f1 :: f2 :: ']' :: r =>
      if f1.isDigit && f2.isDigit then
        some ((10 * digitVal f1 + digitVal f2) * 10, r)
      else none
  | ']' :: r => some (0, r)
  | _ => none

/-- Model of attempting the timestamp regex
`\[(\d{2}):(\d{2})(\.\d{2,3})?\]` at the start of the given character
sequence.  On success returns the decoded time
`minutes * 60 + seconds (+ fraction)` (in milliseconds) and the characters
after the tag. -/
def matchTagFrom : Str → Option (ℕ × Str)
  | '[' :: m1 :: m2 :: ':' :: s1 :: s2 :: rest =>
      if m1.isDigit && m2.isDigit && s1.isDigit && s2.isDigit then
        match matchFrac rest with
        | some (frac, r) =>
            some (((10 * digitVal m1 + digitVal m2) * 60
                   + (10 * digitVal s1 + digitVal s2)) * 1000 + frac, r)
        | none => none
      else none
  | _ => none

/-- Model of `timeReg.exec(line)` combined with
`line.replace(timeReg, '')`: scan left to right for the first position where
the timestamp pattern matches; return the decoded time together with the
line with that first match removed (prefix before the match kept, suffix
after it kept). -/
def firstTagMatch : Str → Option (ℕ × Str)
  | [] => none
  | c :: rest =>
      match matchTagFrom (c :: rest) with
      | some (t, suffix) => some (t, suffix)
      | none =>
          match firstTagMatch rest with
          | some (t, stripped) => some (t, c :: stripped)
          | none => none

/-- The whitespace characters stripped by JavaScript `String.prototype.trim`
(restricted to the ASCII range, which is all the repository ever feeds it). -/
def isJsWhitespace (c : Char) : Bool :=
  c = ' ' || c = '\t' || c = '\n' || c = '\r' || c = '\x0b' || c = '\x0c'

/-- Model of `String.prototype.trim`. -/
def trimChars (s : Str) : Str :=
  ((s.dropWhile isJsWhitespace).reverse.dropWhile isJsWhitespace).reverse

/-- Model of `'\n'`-splitting (`lrc.split('\n')`); splitting the empty
string yields one empty line, as in JavaScript. -/
def splitNl : Str → List Str
  | [] => [[]]
  | c :: rest =>
      if c = '\n' then [] :: splitNl rest
      else
        match splitNl rest with
        | [] => [[c]]
        | x :: xs => (c :: x) :: xs

/-- The body of the parser's per-line loop: decode the first timestamp tag,
strip it, trim the remainder; keep the line only when both a tag was found
and the remaining text is non-empty. -/
def parseLrcLine (line : Str) : Option LyricLine :=
  match firstTagMatch line with
  | none => none
  | some (t, stripped) =>
      let text := trimChars stripped
      if text = [] then none else some ⟨(t : ℚ), text⟩

/-- Ordering used by `result.sort((a, b) => a.time - b.time)`. -/
def timeLE (a b : LyricLine) : Prop := a.time ≤ b.time

instance : DecidableRel timeLE := fun a b => inferInstanceAs (Decidable (a.time ≤ b.time))

instance : IsTotal LyricLine timeLE := ⟨fun a b => le_total a.time b.time⟩

instance : IsTrans LyricLine timeLE := ⟨fun _ _ _ h1 h2 => le_trans h1 h2⟩

/-- Model of `parseLrc`: split on newlines, run the per-line loop, then
sort by time (JavaScript `Array.prototype.sort` is stable; a stable
insertion sort models it). -/
def parseLrc (lrc : Str) : List LyricLine :=
  List.insertionSort timeLE ((splitNl lrc).filterMap parseLrcLine)

/-! ## Serialization of `(time, text)` pairs to `[mm:ss.fff]text` lines

Modelled from the spec: the parser round-trip property serializes each
pair to a `[mm:ss.fff]text` line; the repository itself contains no
serializer, so the following definitions follow the spec's words.  Times
are whole milliseconds. -/

/-- Decimal digits of a natural number (helper for rendering minute values
of 100 or more; structural fuel recursion so that it evaluates in the
kernel). -/
def natDigitsCore : ℕ → ℕ → Str → Str
  | 0, _, acc => acc
  | fuel + 1, n, acc =>
      if n < 10 then Nat.digitChar n :: acc
      else natDigitsCore fuel (n / 10) (Nat.digitChar (n % 10) :: acc)

/-- Decimal rendering of a natural number. -/
def natDigits (n : ℕ) : Str := natDigitsCore (n + 1) n []

/-- Two-digit zero-padded decimal rendering (falls back to full decimal
rendering for values of 100 or more, as `padStart(2, '0')` would). -/
def pad2 (n : ℕ) : Str :=
  if n < 10 then ['0', Nat.digitChar n]
  else if n < 100 then [Nat.digitChar (n / 10), Nat.digitChar (n % 10)]
  else natDigits n

/-- Three-digit zero-padded decimal rendering of a value below 1000. -/
def pad3 (n : ℕ) : Str :=
  [Nat.digitChar (n / 100), Nat.digitChar (n / 10 % 10), Nat.digitChar (n % 10)]

/-- Serialize a `(time, text)` pair (time in whole milliseconds) to an
`[mm:ss.fff]text` line. -/
def serializeLine (t : ℕ) (text : Str) : Str :=
  '[' :: pad2 (t / 60000) ++ ':' :: pad2 (t % 60000 / 1000)
    ++ '.' :: pad3 (t % 1000) ++ ']' :: text

/-- Model of joining lines with `'\n'` (inverse of `splitNl`). -/
def joinNl : List Str → Str
  | [] => []
  | [x] => x
  | x :: y :: xs => x ++ '\n' :: joinNl (y :: xs)

/-- The lyric line a `(time, text)` pair denotes. -/
def toLyricLine (p : ℕ × Str) : LyricLine := ⟨(p.1 : ℚ), p.2⟩

/-! ## Lyric synchronisation stores

The repository contains two implementations of the `'lyric'` Pinia store:
`src/store/lyricStore.ts` (referred to as V1 below) and a refactored
variant with the helpers `parseLyricContent`, `findCurrentLineIndex`,
`resetLyricState`, `updateLyricData` and `handleSongChange`.  Both are
modelled; they differ in whether a non-empty but unparseable lyric sets
the `noLyric` flag. -/

/-- The reactive state of the lyric store: parsed lines, active line index
(`-1` meaning none), and the "no lyric available" flag. -/
structure LyricState where
  lines : List LyricLine
  currentLineIndex : ℤ
  noLyric : Bool
deriving DecidableEq

/-- Model of `parseLyricContent` (refactored store): empty or missing or
whitespace-only lyric text parses to no lines; otherwise defer to
`parseLrc` (the `try`/`catch` is dead in the model since `parseLrc` is
total). -/
def parseLyricContent : Option Str → List LyricLine
  | none => []
  | some s => if trimChars s = [] then [] else parseLrc s

/-- Model of `findCurrentLineIndex` (refactored store; the V1 time watcher
inlines the identical algorithm): the index of the line just before the
first line whose time exceeds the current time; the last line if no line
exceeds it; clamped to 0; `-1` for an empty line list.  `List.findIdx`
returns the length when no element matches, which models `findIndex`
returning `-1`. -/
def findCurrentLineIndex (lines : List LyricLine) (currentTime : ℚ) : ℤ :=
  if lines = [] then -1
  else
    let index := lines.findIdx (fun line => decide (currentTime < line.time))
    if index = lines.length then (lines.length : ℤ) - 1
    else if 0 < index then (index : ℤ) - 1
    else 0

/-- Model of `resetLyricState`. -/
def resetLyricState (_st : LyricState) : LyricState :=
  ⟨[], -1, false⟩

/-- Model of `updateLyricData` (refactored store): parse, then set the
lines and clear the flag if any line was parsed, otherwise clear the lines
and raise the flag. -/
def updateLyricData (st : LyricState) (lyricContent : Option Str) : LyricState :=
  let parsedLines := parseLyricContent lyricContent
  if parsedLines ≠ [] then { st with lines := parsedLines, noLyric := false }
  else { st with lines := [], noLyric := true }

/-- Model of `handleSongChange` (refactored store; the handler of the
song-identity watcher): reset, then update from the new song's lyric. -/
def handleSongChange (st : LyricState) (songData : Option (ℕ × Option Str)) : LyricState :=
  let st0 := resetLyricState st
  match songData with
  | none => st0
  | some d => updateLyricData st0 d.2

/-- Model of the song-change watcher body of `src/store/lyricStore.ts`
(V1): reset, then parse only when the lyric text is truthy and not
whitespace-only — note that when the text is non-empty but parsing yields
no lines, V1 leaves `noLyric` false. -/
def songChangeV1 (st : LyricState) (songData : Option (ℕ × Option Str)) : LyricState :=
  let st0 := resetLyricState st
  match songData with
  | none => st0
  | some d =>
      match d.2 with
      | none => { st0 with noLyric := true }
      | some s =>
          if trimChars s ≠ [] then { st0 with lines := parseLrc s, noLyric := false }
          else { st0 with noLyric := true }

/-- Model of the playback-time watcher body (identical in both stores):
no-op when there are no parsed lines, otherwise recompute the active line
index. -/
def timeWatcher (st : LyricState) (currentTime : ℚ) : LyricState :=
  if st.lines = [] then st
  else { st with currentLineIndex := findCurrentLineIndex st.lines currentTime }

/-! ## Playlist store (`src/store/playerStore.ts`) -/

/-- A file handed to the store by the UI: its name and (for `.lrc` files)
its text content; the binary payload of audio files is opaque and is
identified with the `JsFile` value itself. -/
structure JsFile where
  name : Str
  text : Str
deriving DecidableEq

/-- In-memory reactive song record. -/
structure Song where
  id : ℕ
  name : Str
  url : ℕ
  duration : ℚ
  lyric : Option Str
deriving DecidableEq

/-- Durable record written to the `'my_playlist'` key. -/
structure SavedSong where
  id : ℕ
  name : Str
  file : JsFile
  lyric : Option Str
deriving DecidableEq

/-- The module-level `FileCache`: a plain keyed map.  `set` shadows,
`get` reads the live binding, `remove` deletes it — observationally the
JavaScript object `{ [id]: file }`. -/
abbrev FileCache := List (ℕ × JsFile)

/-- Model of `FileCache.set`. -/
def cacheSet (c : FileCache) (id : ℕ) (file : JsFile) : FileCache :=
  (id, file) :: c

/-- Model of `FileCache.get`. -/
def cacheGet (c : FileCache) (id : ℕ) : Option JsFile :=
  (c.find? (fun p => decide (p.1 = id))).map Prod.snd

/-- Model of `FileCache.remove`. -/
def cacheRemove (c : FileCache) (id : ℕ) : FileCache :=
  c.filter (fun p => decide (¬ p.1 = id))

/-- The whole reactive state of the player store, together with the audio
element binding (`loadedSong` is the song whose url is currently assigned
to `audio.src`) and the durable snapshot (`saved` is the value stored
under the fixed `'my_playlist'` key, `none` if never written). -/
structure PlayerState where
  playlist : List Song
  currentIndex : ℤ
  isPlaying : Bool
  currentTime : ℚ
  duration : ℚ
  loadedSong : Option Song
  cache : FileCache
  saved : Option (List SavedSong)
deriving DecidableEq

/-- The state the store's refs are created with. -/
def initialState : PlayerState :=
  { playlist := [], currentIndex := -1, isPlaying := false, currentTime := 0,
    duration := 0, loadedSong := none, cache := [], saved := none }

/-- Model of the `currentSong` computed property. -/
def currentSong (st : PlayerState) : Option Song :=
  if st.currentIndex < 0 ∨ (st.playlist.length : ℤ) ≤ st.currentIndex then none
  else st.playlist[st.currentIndex.toNat]?

/-- Model of `getBaseName`: `filename.substring(0, filename.lastIndexOf('.'))`
(the empty string when there is no dot, since `substring(0, -1)` clamps). -/
def getBaseName (filename : Str) : Str :=
  ((filename.reverse.dropWhile (fun c => ¬ c = '.')).drop 1).reverse

/-- The extension a file name is classified by: the characters after the
last dot, lower-cased; the empty string when the name contains no dot
(`parts.length > 1` fails) and hence the file is skipped. -/
def fileExt (filename : Str) : Str :=
  if '.' ∈ filename then
    ((filename.reverse.takeWhile (fun c => ¬ c = '.')).reverse).map Char.toLower
  else []

/-- `ALLOWED_EXTENSIONS`. -/
def ALLOWED_EXTENSIONS : List Str :=
  ["mp3".toList, "flac".toList, "wav".toList, "ogg".toList, "m4a".toList, "aac".toList]

/-- Model of `classifyFiles`: partition the input into audio files (in
order) and the base-name-to-lyric-file map (later entries shadow earlier
ones via `mapGet`). -/
def classifyFiles (files : List JsFile) : List JsFile × List (Str × JsFile) :=
  files.foldl
    (fun acc file =>
      let ext := fileExt file.name
      if ext = [] then acc
      else if ext ∈ ALLOWED_EXTENSIONS then (acc.1 ++ [file], acc.2)
      else if ext = "lrc".toList then (acc.1, acc.2 ++ [(getBaseName file.name, file)])
      else acc)
    ([], [])

/-- Lookup in the lyric map: the last `set` for a key wins, as in a
JavaScript `Map`. -/
def mapGet (m : List (Str × JsFile)) (k : Str) : Option JsFile :=
  ((m.filter (fun p => decide (p.1 = k))).getLast?).map Prod.snd

/-- Model of `readLyricContent`: no paired lyric file yields the empty
string (the `catch` branch, also yielding the empty string, is not
separately modelled). -/
def readLyricContent : Option JsFile → Str
  | none => []
  | some f => f.text

/-- Model of `isDuplicateFile`: does some song's display name equal the
file's full name?  (Note: `song.name` is extension-stripped while
`file.name` carries its extension.) -/
def isDuplicateFile (playlist : List Song) (file : JsFile) : Bool :=
  playlist.any (fun song => decide (song.name = file.name))

/-- Model of `createSong` minus its cache write (performed by the caller in
this model): fresh id, display name from the base filename, fresh object
URL (modelled by the id token), zero duration, the lyric text. -/
def createSong (id : ℕ) (file : JsFile) (lyricContent : Str) : Song :=
  { id := id, name := getBaseName file.name, url := id, duration := 0,
    lyric := some lyricContent }

/-- Model of `processAudioFile`: reject duplicates (checked against the
playlist as it was when `addFiles` started — all checks run before any
insertion, mirroring the `Promise.all`), otherwise read the paired lyric
and create the song. -/
def processAudioFile (playlistSnapshot : List Song) (lrcMap : List (Str × JsFile))
    (id : ℕ) (file : JsFile) : Option Song :=
  if isDuplicateFile playlistSnapshot file then none
  else some (createSong id file (readLyricContent (mapGet lrcMap (getBaseName file.name))))

/-- Model of `savePlaylist`'s data computation: one record per song whose
binary is found in the file cache, in playlist order. -/
def savePlaylistData (playlist : List Song) (cache : FileCache) : List SavedSong :=
  playlist.filterMap (fun song =>
    (cacheGet cache song.id).map (fun file =>
      { id := song.id, name := song.name, file := file, lyric := song.lyric }))

/-- Model of `savePlaylist`: replace the durable snapshot wholesale. -/
def savePlaylist (st : PlayerState) : PlayerState :=
  { st with saved := some (savePlaylistData st.playlist st.cache) }

/-- Model of `addSongsToPlaylist`: append, persist, and if nothing was
selected select index 0 and load it (without playing). -/
def addSongsToPlaylist (st : PlayerState) (songs : List Song) : PlayerState :=
  if songs.length = 0 then st
  else
    let st1 := savePlaylist { st with playlist := st.playlist ++ songs }
    if st1.currentIndex = -1 then
      match st1.playlist[0]? with
      | some firstSong => { st1 with currentIndex := 0, loadedSong := some firstSong }
      | none => { st1 with currentIndex := 0 }
    else st1

/-- Model of `addFiles`: classify, process every audio file against the
pre-call playlist snapshot (fresh ids supplied by `ids`), cache the
accepted files, and bulk-append the accepted songs. -/
def addFiles (st : PlayerState) (files : List JsFile) (ids : ℕ → ℕ) : PlayerState :=
  let audioFiles := (classifyFiles files).1
  let lrcMap := (classifyFiles files).2
  if audioFiles.length = 0 then st
  else
    let processed := audioFiles.enum.map
      (fun p => (p.2, processAudioFile st.playlist lrcMap (ids p.1) p.2))
    let cache' := processed.foldl
      (fun cc p => match p.2 with
        | some song => cacheSet cc song.id p.1
        | none => cc)
      st.cache
    let validSongs := processed.filterMap Prod.snd
    if 0 < validSongs.length then addSongsToPlaylist { st with cache := cache' } validSongs
    else { st with cache := cache' }

/-- Model of `loadPlaylist` (run once at store initialisation): restore the
cache and the playlist from the snapshot (fresh object URLs are modelled
by the record ids), and if nothing is selected select and load index 0. -/
def loadPlaylist (st : PlayerState) (stored : Option (List SavedSong)) : PlayerState :=
  match stored with
  | none => st
  | some savedList =>
      if 0 < savedList.length then
        let cache' := savedList.foldl (fun cc item => cacheSet cc item.id item.file) st.cache
        let playlist' := savedList.map (fun item =>
          { id := item.id, name := item.name, url := item.id, duration := 0,
            lyric := some ((item.lyric).getD []) : Song })
        let st1 := { st with cache := cache', playlist := playlist' }
        if st1.currentIndex = -1 ∧ 0 < playlist'.length then
          match playlist'[0]? with
          | some songToLoad => { st1 with currentIndex := 0, loadedSong := some songToLoad }
          | none => { st1 with currentIndex := 0 }
        else st1
      else st

/-- Model of `playIndex`: in range, select, load, and start playback
(`audioPlayer.play()` sets the playing flag synchronously; its failure
classes are modelled separately by `AudioPlayer.play`). -/
def playIndex (st : PlayerState) (index : ℤ) : PlayerState :=
  if index < 0 ∨ (st.playlist.length : ℤ) ≤ index then st
  else
    match st.playlist[index.toNat]? with
    | some song =>
        { st with currentIndex := index, loadedSong := some song, isPlaying := true }
    | none => { st with currentIndex := index }

/-- Model of `togglePlay`. -/
def togglePlay (st : PlayerState) (forceState : Option Bool) : PlayerState :=
  let shouldPlay := forceState.getD (! st.isPlaying)
  if currentSong st = none then st
  else if shouldPlay then { st with isPlaying := true }
  else { st with isPlaying := false }

/-- Model of `nextSong`: advance by one, wrapping past the end to 0. -/
def nextSong (st : PlayerState) : PlayerState :=
  let next := st.currentIndex + 1
  playIndex st (if (st.playlist.length : ℤ) ≤ next then 0 else next)

/-- Model of `seek`. -/
def seek (st : PlayerState) (time : ℚ) : PlayerState :=
  { st with currentTime := time }

/-- Model of `removeSong`: no-op on an invalid index; drop the cache entry;
if the removed song was the current one, pause and re-point (wrapping past
the end to 0) and load the now-current song; if the list empties the index
becomes `-1`; an index before the current one decrements it; persist. -/
def removeSong (st : PlayerState) (index : ℤ) : PlayerState :=
  if index < 0 then st
  else
    match st.playlist[index.toNat]? with
    | none => st
    | some songToDelete =>
        let cache' := cacheRemove st.cache songToDelete.id
        let wasPlaying := index = st.currentIndex
        let isPlaying' := if wasPlaying then false else st.isPlaying
        let playlist' := st.playlist.eraseIdx index.toNat
        let st1 := { st with cache := cache', playlist := playlist',
                             isPlaying := isPlaying' }
        let st2 :=
          if playlist'.length = 0 then { st1 with currentIndex := -1 }
          else if wasPlaying then
            let ci := if (playlist'.length : ℤ) ≤ index then 0 else st.currentIndex
            match playlist'[ci.toNat]? with
            | some next => { st1 with currentIndex := ci, loadedSong := some next }
            | none => { st1 with currentIndex := ci }
          else if index < st.currentIndex then
            { st1 with currentIndex := st.currentIndex - 1 }
          else st1
        savePlaylist st2

/-- Model of `updateLyric`: replace the song's lyric in place and persist. -/
def updateLyric (st : PlayerState) (index : ℤ) (lyricContent : Str) : PlayerState :=
  if index < 0 then st
  else
    match st.playlist[index.toNat]? with
    | none => st
    | some song =>
        savePlaylist
          { st with playlist := st.playlist.set index.toNat { song with lyric := some lyricContent } }

/-- The possible outcomes of awaiting `audio.play()`. -/
inductive PlayOutcome
  | success
  | abortError
  | otherError
deriving DecidableEq

/-- Model of `AudioPlayer.play`: the playing flag is set to `true` before
the underlying attempt resolves; an `AbortError` rejection is swallowed
(flag left `true`); any other rejection reverts the flag to `false`.
`beforeResolve` is the flag's value between the assignment and the
resolution of the attempt, `afterResolve` its value after the `catch`. -/
def AudioPlayer.play (outcome : PlayOutcome) : Bool × Bool :=
  (true,
   match outcome with
   | .success => true
   | .abortError => true
   | .otherError => false)

/-- The states the player store can reach: it is created with
`initialState`, immediately restored via `loadPlaylist` (the one-time
initialisation), and then evolves by its public operations. -/
inductive Reachable : PlayerState → Prop
  | init (stored : Option (List SavedSong)) : Reachable (loadPlaylist initialState stored)
  | addFilesStep {st} (files : List JsFile) (ids : ℕ → ℕ) :
      Reachable st → Reachable (addFiles st files ids)
  | addSongsStep {st} (songs : List Song) :
      Reachable st → Reachable (addSongsToPlaylist st songs)
  | removeStep {st} (index : ℤ) : Reachable st → Reachable (removeSong st index)
  | playIndexStep {st} (index : ℤ) : Reachable st → Reachable (playIndex st index)
  | togglePlayStep {st} (force : Option Bool) : Reachable st → Reachable (togglePlay st force)
  | nextSongStep {st} : Reachable st → Reachable (nextSong st)
  | seekStep {st} (time : ℚ) : Reachable st → Reachable (seek st time)
  | updateLyricStep {st} (index : ℤ) (content : Str) :
      Reachable st → Reachable (updateLyric st index content)

/-! ## Concrete inputs used by witnesses and counterexamples -/

/-- An audio file named `a.mp3`. -/
def fileAmp3 : JsFile := ⟨"a.mp3".toList, []⟩

/-- A demo song. -/
def songA : Song := { id := 0, name := "a".toList, url := 0, duration := 0, lyric := none }

/-- A second demo song. -/
def songB : Song := { id := 1, name := "b".toList, url := 1, duration := 0, lyric := none }

/-- A third demo song. -/
def songC : Song := { id := 2, name := "c".toList, url := 2, duration := 0, lyric := none }

/-- A two-song state in which `songA` is selected, loaded and playing. -/
def stRemoveDemo : PlayerState :=
  { playlist := [songA, songB], currentIndex := 0, isPlaying := true, currentTime := 0,
    duration := 0, loadedSong := some songA, cache := [], saved := none }

/-- A three-song state with the last song selected. -/
def stThreeDemo : PlayerState :=
  { playlist := [songA, songB, songC], currentIndex := 2, isPlaying := true, currentTime := 0,
    duration := 0, loadedSong := some songC, cache := [], saved := none }

/-- A two-song playlist and a cache holding only the first song's binary. -/
def plSaveDemo : List Song := [songA, songB]

/-- The cache for the persistence demo: only `songA`'s binary is present. -/
def cacheSaveDemo : FileCache := [(0, fileAmp3)]

/-- The lyric cue list `[5, 10, 15]` (seconds, i.e. 5000/10000/15000 ms). -/
def linesDemo : List LyricLine :=
  [⟨5000, "a".toList⟩, ⟨10000, "b".toList⟩, ⟨15000, "c".toList⟩]

/-- The index invariant of the player store: `-1 <= currentIndex <
playlist.length`, with `-1` meaning "no selection". -/
def indexInvariant (st : PlayerState) : Prop :=
  -1 ≤ st.currentIndex ∧ st.currentIndex < (st.playlist.length : ℤ)

/-! ## Theorems -/

/-- C1: the spec promises de-duplication by extension-stripped display
name at import, but `isDuplicateFile` compares the stored display name
(extension-stripped) against the incoming *full* file name, so a file that
duplicates an existing song's display name passes the check: importing
`a.mp3` twice (in two batches) yields two songs both named `a`, and the
duplicate check on the second import returns `false`. -/
theorem addFiles_duplicate_name_not_rejected :
    isDuplicateFile (addFiles initialState [fileAmp3] (fun i => i)).playlist fileAmp3 = false ∧
    (addFiles (addFiles initialState [fileAmp3] (fun i => i))
        [fileAmp3] (fun i => 100 + i)).playlist.map Song.name
      = ["a".toList, "a".toList] := by
  decide

/-- C2 (counterexample): removing the currently-selected song at index 0
of `[songA, songB]` pauses and keeps index 0, but the song that shifted
into the slot (`songB`) *is* auto-loaded into the transport — the claim
says it is neither auto-loaded nor auto-played, yet the loaded song
changes from `songA` to `songB`. -/
theorem removeSong_current_autoloads :
    (removeSong stRemoveDemo 0).isPlaying = false ∧
    (removeSong stRemoveDemo 0).currentIndex = 0 ∧
    (removeSong stRemoveDemo 0).loadedSong = some songB ∧
    (removeSong stRemoveDemo 0).loadedSong ≠ stRemoveDemo.loadedSong := by
  decide

/-- C2 (amended): removing the currently-selected song pauses playback; if
the playlist becomes empty the current index becomes `-1`; otherwise the
current index wraps to 0 when the removed index was the last one and is
kept otherwise, and the song now at the current index is auto-loaded into
the transport (but not auto-played: the playing flag is false). -/
theorem removeSong_current_spec (st : PlayerState) (i : ℕ)
    (hcur : (i : ℤ) = st.currentIndex) (hi : i < st.playlist.length) :
    (removeSong st (i : ℤ)).isPlaying = false ∧
    (removeSong st (i : ℤ)).playlist = st.playlist.eraseIdx i ∧
    (st.playlist.length = 1 → (removeSong st (i : ℤ)).currentIndex = -1) ∧
    (1 < st.playlist.length →
      (removeSong st (i : ℤ)).currentIndex
          = (if i = st.playlist.length - 1 then 0 else (i : ℤ)) ∧
      (removeSong st (i : ℤ)).loadedSong
          = (st.playlist.eraseIdx i)[(removeSong st (i : ℤ)).currentIndex.toNat]?) := by
  obtain ⟨pl, ci, ip, ct, du, ls, ca, sa⟩ := st
  simp only at hcur hi ⊢
  subst hcur
  have hnotneg : ¬ ((i : ℤ) < 0) := by omega
  have htn : ((i : ℤ)).toNat = i := Int.toNat_natCast i
  have hsome : pl[i]? = some (pl.get ⟨i, hi⟩) := List.getElem?_eq_getElem hi
  have hlen : (pl.eraseIdx i).length = pl.length - 1 := by
    simp [List.length_eraseIdx, hi]
  unfold removeSong
  rw [if_neg hnotneg, htn, hsome]
  simp only [savePlaylist]
  split
  case isTrue hlen0 =>
    refine ⟨rfl, rfl, fun _ => rfl, fun hlon => absurd hlen0 (by omega)⟩
  case isFalse hlen0 =>
    simp only [if_true]
    have hlon : 1 < pl.length := by omega
    split
    case h_1 next heq =>
      refine ⟨rfl, rfl, fun h1 => absurd h1 (by omega), fun _ => ?_⟩
      by_cases hlast : i = pl.length - 1
      · have hwrap : ((pl.eraseIdx i).length : ℤ) ≤ (i : ℤ) := by omega
        rw [if_pos hlast]
        rw [if_pos hwrap] at heq ⊢
        refine ⟨rfl, ?_⟩
        simp only [Int.toNat_zero] at heq ⊢
        exact heq.symm
      · have hnwrap : ¬ (((pl.eraseIdx i).length : ℤ) ≤ (i : ℤ)) := by omega
        rw [if_neg hlast]
        rw [if_neg hnwrap] at heq ⊢
        refine ⟨rfl, ?_⟩
        rw [htn] at heq ⊢
        exact heq.symm
    case h_2 heq =>
      exfalso
      by_cases hlast : i = pl.length - 1
      · rw [if_pos (by omega : ((pl.eraseIdx i).length : ℤ) ≤ (i : ℤ))] at heq
        simp only [Int.toNat_zero] at heq
        rw [List.getElem?_eq_getElem (by omega : 0 < (pl.eraseIdx i).length)] at heq
        exact Option.noConfusion heq
      · rw [if_neg (by omega : ¬ (((pl.eraseIdx i).length : ℤ) ≤ (i : ℤ)))] at heq
        rw [htn, List.getElem?_eq_getElem (by omega : i < (pl.eraseIdx i).length)] at heq
        exact Option.noConfusion heq

/-- C2 (witness): the amended theorem applied to the concrete two-song
state with index 0 removed. -/
theorem removeSong_current_spec_witness :
    (removeSong stRemoveDemo 0).isPlaying = false ∧
    (removeSong stRemoveDemo 0).playlist = stRemoveDemo.playlist.eraseIdx 0 ∧
    (stRemoveDemo.playlist.length = 1 → (removeSong stRemoveDemo 0).currentIndex = -1) ∧
    (1 < stRemoveDemo.playlist.length →
      (removeSong stRemoveDemo 0).currentIndex
          = (if 0 = stRemoveDemo.playlist.length - 1 then 0 else ((0 : ℕ) : ℤ)) ∧
      (removeSong stRemoveDemo 0).loadedSong
          = (stRemoveDemo.playlist.eraseIdx 0)[(removeSong stRemoveDemo 0).currentIndex.toNat]?) :=
  removeSong_current_spec stRemoveDemo 0 (by decide) (by decide)

/-- C6: removing a valid index strictly before the current one decrements
the current index, which then points at the same logical song. -/
theorem removeSong_before_current (st : PlayerState) (i j : ℕ)
    (hij : i < j) (hj : (j : ℤ) = st.currentIndex) (hjlen : j < st.playlist.length) :
    (removeSong st (i : ℤ)).currentIndex = st.currentIndex - 1 ∧
    (removeSong st (i : ℤ)).playlist[j - 1]? = st.playlist[j]? ∧
    (removeSong st (i : ℤ)).playlist[(removeSong st (i : ℤ)).currentIndex.toNat]?
      = st.playlist[j]? := by
  obtain ⟨pl, ci, ip, ct, du, ls, ca, sa⟩ := st
  simp only at hj hjlen ⊢
  subst hj
  have hi : i < pl.length := by omega
  have htn : ((i : ℤ)).toNat = i := Int.toNat_natCast i
  have hsome : pl[i]? = some (pl.get ⟨i, hi⟩) := List.getElem?_eq_getElem hi
  have hlen : (pl.eraseIdx i).length = pl.length - 1 := by
    simp [List.length_eraseIdx, hi]
  have hgoal : (pl.eraseIdx i)[j - 1]? = pl[j]? := by
    rw [List.getElem?_eraseIdx, if_neg (by omega : ¬ (j - 1 < i))]
    congr 1
    omega
  unfold removeSong
  rw [if_neg (by omega : ¬ ((i : ℤ) < 0)), htn, hsome]
  simp only [savePlaylist]
  rw [if_neg (by omega : ¬ ((pl.eraseIdx i).length = 0))]
  rw [if_neg (by omega : ¬ ((i : ℤ) = (j : ℤ)))]
  rw [if_pos (by omega : (i : ℤ) < (j : ℤ))]
  refine ⟨rfl, hgoal, ?_⟩
  have hj1 : (((j : ℤ)) - 1).toNat = j - 1 := by omega
  simpa [hj1] using hgoal

/-- C6 (witness): three songs, current index 2, removing index 0 yields
current index 1 pointing at the song that was at index 2. -/
theorem removeSong_before_current_witness :
    (removeSong stThreeDemo ((0 : ℕ) : ℤ)).currentIndex = stThreeDemo.currentIndex - 1 ∧
    (removeSong stThreeDemo ((0 : ℕ) : ℤ)).playlist[2 - 1]? = stThreeDemo.playlist[2]? ∧
    (removeSong stThreeDemo ((0 : ℕ) : ℤ)).playlist[(removeSong stThreeDemo
        ((0 : ℕ) : ℤ)).currentIndex.toNat]? = stThreeDemo.playlist[2]? :=
  removeSong_before_current stThreeDemo 0 2 (by decide) (by decide) (by decide)

/-- C3: in the refactored lyric store, a song whose lyric is undefined or
the empty string yields `noLyric = true`, empty lines and index `-1` (and
the V1 store watcher agrees); and a song whose lyric is non-empty but
parses to zero lines also yields `noLyric = true` with empty lines and
index `-1` in the refactored store. -/
theorem lyricStore_noLyric_flag (st : LyricState) (id : ℕ) (lyr : Option Str) :
    ((lyr = none ∨ lyr = some []) →
      handleSongChange st (some (id, lyr)) = ⟨[], -1, true⟩ ∧
      songChangeV1 st (some (id, lyr)) = ⟨[], -1, true⟩) ∧
    (∀ s, lyr = some s → parseLrc s = [] →
      handleSongChange st (some (id, lyr)) = ⟨[], -1, true⟩) := by
  constructor
  · rintro (rfl | rfl)
    · constructor <;> rfl
    · constructor <;> rfl
  · rintro s rfl hparse
    simp only [handleSongChange, updateLyricData, resetLyricState, parseLyricContent]
    by_cases htrim : trimChars s = []
    · simp [htrim]
    · simp [htrim, hparse]

/-- C3 (witness): the theorem applied to a missing lyric and to the
non-empty unparseable lyric `"la la la"`. -/
theorem lyricStore_noLyric_flag_witness :
    (handleSongChange ⟨[], -1, false⟩ (some (0, none)) = ⟨[], -1, true⟩ ∧
      songChangeV1 ⟨[], -1, false⟩ (some (0, none)) = ⟨[], -1, true⟩) ∧
    handleSongChange ⟨[], -1, false⟩ (some (1, some "la la la".toList)) = ⟨[], -1, true⟩ :=
  ⟨(lyricStore_noLyric_flag ⟨[], -1, false⟩ 0 none).1 (Or.inl rfl),
   (lyricStore_noLyric_flag ⟨[], -1, false⟩ 1 (some "la la la".toList)).2
     "la la la".toList rfl (by decide)⟩

/-- C8: every record produced by the save projection comes from a playlist
song whose binary is in the file cache (and carries that song's id, name,
lyric and cached binary); a playlist song absent from the cache contributes
no record. -/
theorem savePlaylist_cache_exclusion (playlist : List Song) (cache : FileCache) :
    (∀ r ∈ savePlaylistData playlist cache,
      ∃ song ∈ playlist, r.id = song.id ∧ r.name = song.name ∧ r.lyric = song.lyric ∧
        cacheGet cache song.id = some r.file) ∧
    (∀ song ∈ playlist, cacheGet cache song.id = none →
      ∀ r ∈ savePlaylistData playlist cache, r.id ≠ song.id) := by
  constructor
  · intro r hr
    rw [savePlaylistData, List.mem_filterMap] at hr
    obtain ⟨song, hsong, hmap⟩ := hr
    rcases hcg : cacheGet cache song.id with _ | file
    · rw [hcg] at hmap
      exact Option.noConfusion hmap
    · rw [hcg] at hmap
      simp only [Option.map_some', Option.some_inj] at hmap
      subst hmap
      exact ⟨song, hsong, rfl, rfl, rfl, hcg⟩
  · intro song hsong hnone r hr heq
    rw [savePlaylistData, List.mem_filterMap] at hr
    obtain ⟨song', hsong', hmap⟩ := hr
    rcases hcg : cacheGet cache song'.id with _ | file
    · rw [hcg] at hmap
      exact Option.noConfusion hmap
    · rw [hcg] at hmap
      simp only [Option.map_some', Option.some_inj] at hmap
      subst hmap
      simp only at heq
      rw [heq] at hcg
      rw [hcg] at hnone
      exact Option.noConfusion hnone

/-- C8 (witness): with a cache holding only `songA`'s binary, the record
produced for `songA` points back at it, and no record carries `songB`'s
id. -/
theorem savePlaylist_cache_exclusion_witness :
    (∃ song ∈ plSaveDemo, (⟨0, "a".toList, fileAmp3, none⟩ : SavedSong).id = song.id ∧
      (⟨0, "a".toList, fileAmp3, none⟩ : SavedSong).name = song.name ∧
      (⟨0, "a".toList, fileAmp3, none⟩ : SavedSong).lyric = song.lyric ∧
      cacheGet cacheSaveDemo song.id = some (⟨0, "a".toList, fileAmp3, none⟩ : SavedSong).file) ∧
    (⟨0, "a".toList, fileAmp3, none⟩ : SavedSong).id ≠ songB.id :=
  ⟨(savePlaylist_cache_exclusion plSaveDemo cacheSaveDemo).1 ⟨0, "a".toList, fileAmp3, none⟩
      (by decide),
   (savePlaylist_cache_exclusion plSaveDemo cacheSaveDemo).2 songB (by decide) (by decide)
      ⟨0, "a".toList, fileAmp3, none⟩ (by decide)⟩

/-- C10: `AudioPlayer.play` raises the playing flag before the underlying
attempt resolves, and after resolution the flag is still true exactly when
the attempt succeeded or was rejected with the superseded-request
(`AbortError`) class; only the other failure class reverts it. -/
theorem audioPlayer_play_flag (outcome : PlayOutcome) :
    (AudioPlayer.play outcome).1 = true ∧
    ((AudioPlayer.play outcome).2 = true ↔ outcome ≠ PlayOutcome.otherError) := by
  cases outcome <;> simp [AudioPlayer.play]

/-- The invariant holds in the pristine store state. -/
theorem indexInvariant_initialState : indexInvariant initialState := by
  constructor <;> decide

/-- One-time initialisation (`loadPlaylist` from the pristine state)
establishes the invariant for every stored snapshot. -/
theorem indexInvariant_loadPlaylist (stored : Option (List SavedSong)) :
    indexInvariant (loadPlaylist initialState stored) := by
  rcases stored with _ | savedList
  · exact indexInvariant_initialState
  · rcases savedList with _ | ⟨item, rest⟩
    · exact indexInvariant_initialState
    · simp only [loadPlaylist, initialState, indexInvariant]
      simp

/-- `addSongsToPlaylist` preserves the invariant. -/
theorem indexInvariant_addSongsToPlaylist (st : PlayerState) (songs : List Song)
    (h : indexInvariant st) : indexInvariant (addSongsToPlaylist st songs) := by
  obtain ⟨h1, h2⟩ := h
  unfold addSongsToPlaylist
  split
  case isTrue => exact ⟨h1, h2⟩
  case isFalse hne =>
    simp only [savePlaylist]
    split
    case isTrue hci =>
      split
      case h_1 s heq =>
        refine ⟨?_, ?_⟩ <;> dsimp only <;> try simp only [List.length_append]
        all_goals omega
      case h_2 heq =>
        refine ⟨?_, ?_⟩ <;> dsimp only <;> try simp only [List.length_append]
        all_goals omega
    case isFalse hci =>
      refine ⟨?_, ?_⟩ <;> dsimp only <;> try simp only [List.length_append]
      all_goals omega

/-- `addFiles` preserves the invariant. -/
theorem indexInvariant_addFiles (st : PlayerState) (files : List JsFile) (ids : ℕ → ℕ)
    (h : indexInvariant st) : indexInvariant (addFiles st files ids) := by
  simp only [addFiles]
  split
  case isTrue => exact h
  case isFalse =>
    split
    case isTrue => exact indexInvariant_addSongsToPlaylist _ _ h
    case isFalse => exact h

/-- `playIndex` preserves the invariant. -/
theorem indexInvariant_playIndex (st : PlayerState) (index : ℤ)
    (h : indexInvariant st) : indexInvariant (playIndex st index) := by
  obtain ⟨h1, h2⟩ := h
  unfold playIndex
  split
  case isTrue => exact ⟨h1, h2⟩
  case isFalse hrange =>
    push_neg at hrange
    split
    case h_1 s heq => refine ⟨?_, ?_⟩ <;> dsimp only <;> omega
    case h_2 heq => refine ⟨?_, ?_⟩ <;> dsimp only <;> omega

/-- `nextSong` preserves the invariant. -/
theorem indexInvariant_nextSong (st : PlayerState) (h : indexInvariant st) :
    indexInvariant (nextSong st) :=
  indexInvariant_playIndex st _ h

/-- `togglePlay` preserves the invariant. -/
theorem indexInvariant_togglePlay (st : PlayerState) (force : Option Bool)
    (h : indexInvariant st) : indexInvariant (togglePlay st force) := by
  simp only [togglePlay]
  split
  · exact h
  · split
    · exact h
    · exact h

/-- `seek` preserves the invariant. -/
theorem indexInvariant_seek (st : PlayerState) (t : ℚ) (h : indexInvariant st) :
    indexInvariant (seek st t) := h

/-- `updateLyric` preserves the invariant. -/
theorem indexInvariant_updateLyric (st : PlayerState) (index : ℤ) (content : Str)
    (h : indexInvariant st) : indexInvariant (updateLyric st index content) := by
  obtain ⟨h1, h2⟩ := h
  unfold updateLyric
  split
  case isTrue => exact ⟨h1, h2⟩
  case isFalse =>
    split
    case h_1 => exact ⟨h1, h2⟩
    case h_2 s heq =>
      simp only [savePlaylist]
      refine ⟨?_, ?_⟩ <;> dsimp only <;> try simp only [List.length_set]
      all_goals omega

/-- `removeSong` preserves the invariant — in particular every way the
playlist shrinks corrects the index. -/
theorem indexInvariant_removeSong (st : PlayerState) (index : ℤ)
    (h : indexInvariant st) : indexInvariant (removeSong st index) := by
  obtain ⟨h1, h2⟩ := h
  unfold removeSong
  split
  case isTrue => exact ⟨h1, h2⟩
  case isFalse hneg =>
    split
    case h_1 => exact ⟨h1, h2⟩
    case h_2 songToDelete heq =>
      have hidx : index.toNat < st.playlist.length := by
        by_contra hcon
        rw [List.getElem?_eq_none (by omega)] at heq
        exact Option.noConfusion heq
      have hlen : (st.playlist.eraseIdx index.toNat).length = st.playlist.length - 1 := by
        simp [List.length_eraseIdx, hidx]
      simp only [savePlaylist]
      split
      case isTrue h0 =>
        refine ⟨?_, ?_⟩ <;> dsimp only <;> try simp only [h0]
        all_goals omega
      case isFalse h0 =>
        split
        case isTrue hwas =>
          split
          case h_1 s hs =>
            refine ⟨?_, ?_⟩ <;> dsimp only <;> split <;> try simp only [hlen]
            all_goals omega
          case h_2 hs =>
            refine ⟨?_, ?_⟩ <;> dsimp only <;> split <;> try simp only [hlen]
            all_goals omega
        case isFalse hwas =>
          split
          case isTrue hlt =>
            refine ⟨?_, ?_⟩ <;> dsimp only <;> try simp only [hlen]
            all_goals omega
          case isFalse hlt =>
            refine ⟨?_, ?_⟩ <;> dsimp only <;> try simp only [hlen]
            all_goals omega

/-- C7: the current-index invariant `-1 <= currentIndex < playlist.length`
holds in every reachable store state: it is established at initialisation
(`loadPlaylist`) and preserved by every store operation, including every
way the playlist shrinks. -/
theorem playerStore_index_invariant (st : PlayerState) (h : Reachable st) :
    indexInvariant st := by
  induction h with
  | init stored => exact indexInvariant_loadPlaylist stored
  | addFilesStep files ids _ ih => exact indexInvariant_addFiles _ files ids ih
  | addSongsStep songs _ ih => exact indexInvariant_addSongsToPlaylist _ songs ih
  | removeStep index _ ih => exact indexInvariant_removeSong _ index ih
  | playIndexStep index _ ih => exact indexInvariant_playIndex _ index ih
  | togglePlayStep force _ ih => exact indexInvariant_togglePlay _ force ih
  | nextSongStep _ ih => exact indexInvariant_nextSong _ ih
  | seekStep time _ ih => exact indexInvariant_seek _ time ih
  | updateLyricStep index content _ ih => exact indexInvariant_updateLyric _ index content ih

/-- C7 (witness): the invariant theorem applied to the freshly initialised
store with no prior snapshot. -/
theorem playerStore_index_invariant_witness :
    indexInvariant (loadPlaylist initialState none) :=
  playerStore_index_invariant (loadPlaylist initialState none) (Reachable.init none)

/-- Every line kept by the per-line loop has non-negative time and
non-empty text. -/
theorem parseLrcLine_time_text {line : Str} {l : LyricLine}
    (h : parseLrcLine line = some l) : 0 ≤ l.time ∧ l.text ≠ [] := by
  unfold parseLrcLine at h
  rcases hm : firstTagMatch line with _ | ⟨t, stripped⟩
  · rw [hm] at h
    exact Option.noConfusion h
  · rw [hm] at h
    dsimp only at h
    by_cases he : trimChars stripped = []
    · rw [if_pos he] at h
      exact Option.noConfusion h
    · rw [if_neg he] at h
      obtain rfl := Option.some_inj.mp h
      exact ⟨Nat.cast_nonneg t, he⟩

/-- A timestamp-tag match can only start at an opening bracket. -/
theorem matchTagFrom_eq_none_of_head (c : Char) (rest : Str) (hc : ¬ c = '[') :
    matchTagFrom (c :: rest) = none := by
  unfold matchTagFrom
  split
  case h_1 m1 m2 s1 s2 rest' heq =>
    exact absurd (List.head_eq_of_cons_eq heq) hc
  case h_2 => rfl

/-- A line that contains no opening bracket has no timestamp tag. -/
theorem firstTagMatch_eq_none {line : Str} (h : '[' ∉ line) :
    firstTagMatch line = none := by
  induction line with
  | nil => rfl
  | cons c rest ih =>
      have hc : ¬ c = '[' := fun hh => h (hh ▸ List.mem_cons_self c rest)
      have hrest : '[' ∉ rest := fun hh => h (List.mem_cons_of_mem c hh)
      unfold firstTagMatch
      rw [matchTagFrom_eq_none_of_head c rest hc, ih hrest]

/-- `splitNl` never returns the empty list of lines. -/
theorem splitNl_ne_nil (s : Str) : splitNl s ≠ [] := by
  cases s with
  | nil => exact fun h => List.noConfusion h
  | cons c rest =>
      unfold splitNl
      split
      · exact fun h => List.noConfusion h
      · split <;> exact fun h => List.noConfusion h

/-- Every character of every line produced by `splitNl` occurs in the
input. -/
theorem mem_of_mem_splitNl {s line : Str} (hline : line ∈ splitNl s) :
    ∀ c ∈ line, c ∈ s := by
  induction s generalizing line with
  | nil =>
      intro c hc
      simp only [splitNl, List.mem_singleton] at hline
      subst hline
      exact absurd hc (List.not_mem_nil c)
  | cons a rest ih =>
      intro c hc
      unfold splitNl at hline
      by_cases ha : a = '\n'
      · rw [if_pos ha] at hline
        rcases List.mem_cons.mp hline with rfl | htail
        · exact absurd hc (List.not_mem_nil c)
        · exact List.mem_cons_of_mem a (ih htail c hc)
      · rw [if_neg ha] at hline
        rcases hsp : splitNl rest with _ | ⟨x, xs⟩
        · exact absurd hsp (splitNl_ne_nil rest)
        · rw [hsp] at hline
          rcases List.mem_cons.mp hline with rfl | htail
          · rcases List.mem_cons.mp hc with rfl | hcx
            · exact List.mem_cons_self c rest
            · refine List.mem_cons_of_mem a (ih ?_ c hcx)
              rw [hsp]
              exact List.mem_cons_self x xs
          · refine List.mem_cons_of_mem a (ih ?_ c hc)
            rw [hsp]
            exact List.mem_cons_of_mem x htail

/-- C9: parser postconditions — every returned line has non-negative time
and non-empty text (lines without a tag or with empty stripped text having
been discarded), the output is sorted non-decreasing by time, and
whitespace-only (in particular empty) input yields the empty sequence;
totality holds by construction since `parseLrc` is a Lean function. -/
theorem parseLrc_postconditions (s : Str) :
    (∀ l ∈ parseLrc s, 0 ≤ l.time ∧ l.text ≠ []) ∧
    List.Pairwise timeLE (parseLrc s) ∧
    ((∀ c ∈ s, isJsWhitespace c = true) → parseLrc s = []) := by
  refine ⟨?_, ?_, ?_⟩
  · intro l hl
    rw [parseLrc, (List.perm_insertionSort timeLE _).mem_iff, List.mem_filterMap] at hl
    obtain ⟨line, _, hparse⟩ := hl
    exact parseLrcLine_time_text hparse
  · exact List.sorted_insertionSort timeLE _
  · intro hws
    rw [parseLrc]
    have hnil : (splitNl s).filterMap parseLrcLine = [] := by
      rw [List.filterMap_eq_nil_iff]
      intro line hline
      have hbr : '[' ∉ line := by
        intro hmem
        have := hws '[' (mem_of_mem_splitNl hline '[' hmem)
        exact absurd this (by decide)
      rw [parseLrcLine, firstTagMatch_eq_none hbr]
    rw [hnil]
    rfl

/-- C9 (witness): the postcondition theorem applied to a parsed line of a
concrete input and to a whitespace-only input. -/
theorem parseLrc_postconditions_witness :
    (0 ≤ (⟨12340, "hi".toList⟩ : LyricLine).time ∧
      (⟨12340, "hi".toList⟩ : LyricLine).text ≠ []) ∧
    parseLrc "  \t ".toList = [] :=
  ⟨(parseLrc_postconditions "[00:12.34]hi".toList).1 ⟨12340, "hi".toList⟩ (by decide),
   (parseLrc_postconditions "  \t ".toList).2.2 (by decide)⟩

/-- C5: for a non-empty time-sorted line list, the active line index is in
range; when a line with time at most `t` exists it is the last such line
(every later line exceeds `t`); when every line exceeds `t` the index is
clamped to 0; when no line exceeds `t` the last index is active.  The
concrete cases of the claim — lines at seconds 5/10/15 with `t` = 0, 12
and 999 — give indices 0, 1 and 2. -/
theorem activeLine_spec (ls : List LyricLine) (t : ℚ) (hne : ls ≠ [])
    (hsort : List.Pairwise timeLE ls) :
    (∃ r : ℕ, findCurrentLineIndex ls t = (r : ℤ) ∧
      ∃ hr : r < ls.length,
        ((∀ l ∈ ls, t < l.time) → r = 0) ∧
        ((∀ l ∈ ls, l.time ≤ t) → r = ls.length - 1) ∧
        ((∃ l ∈ ls, l.time ≤ t) →
          (ls.get ⟨r, hr⟩).time ≤ t ∧
          ∀ j, ∀ hj : j < ls.length, r < j → t < (ls.get ⟨j, hj⟩).time)) ∧
    (findCurrentLineIndex linesDemo 0 = 0 ∧
      findCurrentLineIndex linesDemo 12000 = 1 ∧
      findCurrentLineIndex linesDemo 999000 = 2) := by
  have hlen0 : 0 < ls.length := List.length_pos.mpr hne
  have hmono : ∀ i j (hi : i < ls.length) (hj : j < ls.length), i ≤ j →
      (ls.get ⟨i, hi⟩).time ≤ (ls.get ⟨j, hj⟩).time := by
    intro i j hi hj hij
    rcases Nat.eq_or_lt_of_le hij with rfl | hlt
    · exact le_refl _
    · exact List.pairwise_iff_get.mp hsort ⟨i, hi⟩ ⟨j, hj⟩ (Fin.mk_lt_mk.mpr hlt)
  have hfc : findCurrentLineIndex ls t =
      (if ls.findIdx (fun line => decide (t < line.time)) = ls.length
       then (ls.length : ℤ) - 1
       else if 0 < ls.findIdx (fun line => decide (t < line.time))
       then (ls.findIdx (fun line => decide (t < line.time)) : ℤ) - 1 else 0) := by
    simp only [findCurrentLineIndex, if_neg hne]
  have hfalse : ∀ i (hi : i < ls.findIdx (fun line => decide (t < line.time)))
      (hil : i < ls.length), (ls.get ⟨i, hil⟩).time ≤ t := by
    intro i hi hil
    have := List.not_of_lt_findIdx hi
    simp only [List.get_eq_getElem]
    simp only [decide_eq_false_iff_not, not_lt] at this
    exact this
  refine ⟨?_, by decide, by decide, by decide⟩
  by_cases hk : ls.findIdx (fun line => decide (t < line.time)) = ls.length
  · refine ⟨ls.length - 1, ?_, by omega, ?_, fun _ => rfl, ?_⟩
    · rw [hfc, if_pos hk]
      omega
    · intro hall
      exfalso
      have h0 := hfalse 0 (by omega) hlen0
      have := hall (ls.get ⟨0, hlen0⟩) (List.get_mem ls 0 hlen0)
      exact absurd (lt_of_lt_of_le this h0) (lt_irrefl t)
    · intro _
      refine ⟨hfalse (ls.length - 1) (by omega) (by omega), ?_⟩
      intro j hj hgt
      omega
  · have hklt : ls.findIdx (fun line => decide (t < line.time)) < ls.length :=
      lt_of_le_of_ne (List.findIdx_le_length _) hk
    have hkp : t < (ls.get ⟨ls.findIdx (fun line => decide (t < line.time)), hklt⟩).time := by
      have h := @List.findIdx_getElem _ (fun line => decide (t < line.time)) ls hklt
      simp only [decide_eq_true_eq] at h
      simpa [List.get_eq_getElem] using h
    by_cases hk0 : 0 < ls.findIdx (fun line => decide (t < line.time))
    · refine ⟨ls.findIdx (fun line => decide (t < line.time)) - 1, ?_, by omega, ?_, ?_, ?_⟩
      · show findCurrentLineIndex ls t
            = ((ls.findIdx (fun line => decide (t < line.time)) - 1 : ℕ) : ℤ)
        rw [hfc, if_neg hk, if_pos hk0]
        omega
      · intro hall
        exfalso
        have h0 := hfalse (ls.findIdx (fun line => decide (t < line.time)) - 1) (by omega)
          (by omega)
        have := hall _ (List.get_mem ls
          (ls.findIdx (fun line => decide (t < line.time)) - 1) (by omega))
        exact absurd (lt_of_lt_of_le this h0) (lt_irrefl t)
      · intro hall
        exfalso
        have := hall _ (List.get_mem ls _ hklt)
        exact absurd (lt_of_le_of_lt this hkp) (lt_irrefl _)
      · intro _
        refine ⟨hfalse _ (by omega) (by omega), ?_⟩
        intro j hj hgt
        have hkj : ls.findIdx (fun line => decide (t < line.time)) ≤ j := by omega
        exact lt_of_lt_of_le hkp (hmono _ _ hklt hj hkj)
    · have hk00 : ls.findIdx (fun line => decide (t < line.time)) = 0 := by omega
      have hk0' : t < (ls.get ⟨0, hlen0⟩).time := by
        have := hkp
        simp only [hk00] at this
        exact this
      refine ⟨0, ?_, hlen0, fun _ => rfl, ?_, ?_⟩
      · rw [hfc, if_neg hk, if_neg hk0]
        norm_num
      · intro hall
        exfalso
        have := hall _ (List.get_mem ls 0 hlen0)
        exact absurd (lt_of_le_of_lt this hk0') (lt_irrefl _)
      · intro hex
        exfalso
        obtain ⟨l, hl, hle⟩ := hex
        obtain ⟨jf, hjf⟩ := List.mem_iff_get.mp hl
        have h0j : (ls.get ⟨0, hlen0⟩).time ≤ (ls.get jf).time := by
          have := hmono 0 jf.1 hlen0 jf.2 (Nat.zero_le _)
          simpa using this
        rw [hjf] at h0j
        exact absurd (lt_of_lt_of_le hk0' (le_trans h0j hle)) (lt_irrefl t)

/-- C5 (witness): the active-line theorem applied to the cue list
`[5, 10, 15]` at playback time 12 seconds. -/
theorem activeLine_spec_witness :
    (∃ r : ℕ, findCurrentLineIndex linesDemo 12000 = (r : ℤ) ∧
      ∃ hr : r < linesDemo.length,
        ((∀ l ∈ linesDemo, (12000 : ℚ) < l.time) → r = 0) ∧
        ((∀ l ∈ linesDemo, l.time ≤ (12000 : ℚ)) → r = linesDemo.length - 1) ∧
        ((∃ l ∈ linesDemo, l.time ≤ (12000 : ℚ)) →
          (linesDemo.get ⟨r, hr⟩).time ≤ (12000 : ℚ) ∧
          ∀ j, ∀ hj : j < linesDemo.length, r < j →
            (12000 : ℚ) < (linesDemo.get ⟨j, hj⟩).time)) ∧
    (findCurrentLineIndex linesDemo 0 = 0 ∧
      findCurrentLineIndex linesDemo 12000 = 1 ∧
      findCurrentLineIndex linesDemo 999000 = 2) :=
  activeLine_spec linesDemo 12000 (by decide) (by decide)

/-- A decimal digit character decodes to its value. -/
theorem digitChar_spec : ∀ n, n < 10 →
    ((Nat.digitChar n).isDigit = true ∧ digitVal (Nat.digitChar n) = n) := by
  decide

/-- Two-digit zero-padded rendering of a value below 100: two digit
characters that decode back to the value. -/
theorem pad2_spec (n : ℕ) (h : n < 100) :
    ∃ c1 c2, pad2 n = [c1, c2] ∧ c1.isDigit = true ∧ c2.isDigit = true ∧
      10 * digitVal c1 + digitVal c2 = n := by
  by_cases h10 : n < 10
  · refine ⟨'0', Nat.digitChar n, by simp [pad2, h10], by decide,
      (digitChar_spec n h10).1, ?_⟩
    rw [(digitChar_spec n h10).2]
    rw [show digitVal '0' = 0 from rfl]
    omega
  · refine ⟨Nat.digitChar (n / 10), Nat.digitChar (n % 10),
      by simp [pad2, h10, h], (digitChar_spec _ (by omega)).1,
      (digitChar_spec _ (by omega)).1, ?_⟩
    rw [(digitChar_spec _ (by omega)).2, (digitChar_spec _ (by omega)).2]
    omega

/-- Three-digit zero-padded rendering of a value below 1000: three digit
characters that decode back to the value. -/
theorem pad3_spec (n : ℕ) (h : n < 1000) :
    ∃ c1 c2 c3, pad3 n = [c1, c2, c3] ∧ c1.isDigit = true ∧ c2.isDigit = true ∧
      c3.isDigit = true ∧ 100 * digitVal c1 + 10 * digitVal c2 + digitVal c3 = n := by
  refine ⟨Nat.digitChar (n / 100), Nat.digitChar (n / 10 % 10), Nat.digitChar (n % 10),
    rfl, (digitChar_spec _ (by omega)).1, (digitChar_spec _ (by omega)).1,
    (digitChar_spec _ (by omega)).1, ?_⟩
  rw [(digitChar_spec _ (by omega)).2, (digitChar_spec _ (by omega)).2,
    (digitChar_spec _ (by omega)).2]
  omega

/-- The timestamp regex decodes a serialized line (time below 100 minutes)
at position 0, returning the time in milliseconds and the text. -/
theorem matchTagFrom_serializeLine (t : ℕ) (ht : t < 6000000) (text : Str) :
    matchTagFrom (serializeLine t text) = some (t, text) := by
  obtain ⟨m1, m2, hm, hm1, hm2, hmv⟩ := pad2_spec (t / 60000) (by omega)
  obtain ⟨s1, s2, hs, hs1, hs2, hsv⟩ := pad2_spec (t % 60000 / 1000) (by omega)
  obtain ⟨f1, f2, f3, hf, hf1, hf2, hf3, hfv⟩ := pad3_spec (t % 1000) (by omega)
  rw [serializeLine, hm, hs, hf]
  simp only [List.cons_append, List.nil_append]
  rw [matchTagFrom]
  rw [if_pos (by simp [hm1, hm2, hs1, hs2])]
  rw [matchFrac]
  rw [if_pos (by simp [hf1, hf2, hf3])]
  simp only [Option.some_inj, Prod.mk.injEq]
  constructor
  · omega
  · trivial

/-- When the pattern matches at position 0, the scan returns that match. -/
theorem firstTagMatch_of_matchTagFrom {l : Str} {t : ℕ} {r : Str}
    (h : matchTagFrom l = some (t, r)) : firstTagMatch l = some (t, r) := by
  cases l with
  | nil =>
      rw [show matchTagFrom [] = none from rfl] at h
      exact Option.noConfusion h
  | cons c rest =>
      rw [firstTagMatch, h]

/-- The per-line loop inverts serialization for trim-stable non-empty
texts. -/
theorem parseLrcLine_serializeLine (t : ℕ) (ht : t < 6000000) (text : Str)
    (hne : text ≠ []) (htrim : trimChars text = text) :
    parseLrcLine (serializeLine t text) = some ⟨(t : ℚ), text⟩ := by
  rw [parseLrcLine, firstTagMatch_of_matchTagFrom (matchTagFrom_serializeLine t ht text)]
  dsimp only
  rw [htrim, if_neg hne]

/-- A serialized line of a newline-free text contains no newline. -/
theorem serializeLine_no_newline (t : ℕ) (ht : t < 6000000) (text : Str)
    (htext : '\n' ∉ text) : '\n' ∉ serializeLine t text := by
  obtain ⟨m1, m2, hm, hm1, hm2, _⟩ := pad2_spec (t / 60000) (by omega)
  obtain ⟨s1, s2, hs, hs1, hs2, _⟩ := pad2_spec (t % 60000 / 1000) (by omega)
  obtain ⟨f1, f2, f3, hf, hf1, hf2, hf3, _⟩ := pad3_spec (t % 1000) (by omega)
  rw [serializeLine, hm, hs, hf]
  simp only [List.cons_append, List.nil_append]
  intro hmem
  simp only [List.mem_cons] at hmem
  rcases hmem with h | h | h | h | h | h | h | h | h | h | h | h
  · exact absurd h (by decide)
  · rw [← h] at hm1
    exact absurd hm1 (by decide)
  · rw [← h] at hm2
    exact absurd hm2 (by decide)
  · exact absurd h (by decide)
  · rw [← h] at hs1
    exact absurd hs1 (by decide)
  · rw [← h] at hs2
    exact absurd hs2 (by decide)
  · exact absurd h (by decide)
  · rw [← h] at hf1
    exact absurd hf1 (by decide)
  · rw [← h] at hf2
    exact absurd hf2 (by decide)
  · rw [← h] at hf3
    exact absurd hf3 (by decide)
  · exact absurd h (by decide)
  · exact htext h

/-- Splitting around the first joined newline. -/
theorem splitNl_append_cons (x : Str) (hx : '\n' ∉ x) (r : Str) :
    splitNl (x ++ '\n' :: r) = x :: splitNl r := by
  induction x with
  | nil =>
      rw [List.nil_append, splitNl]
      rw [if_pos rfl]
  | cons c cs ih =>
      have hc : ¬ (c = '\n') := fun h => hx (h ▸ List.mem_cons_self c cs)
      have hcs : '\n' ∉ cs := fun h => hx (List.mem_cons_of_mem c h)
      rw [List.cons_append, splitNl, if_neg hc, ih hcs]

/-- Splitting a newline-free string yields that one line. -/
theorem splitNl_no_newline (x : Str) (hx : '\n' ∉ x) : splitNl x = [x] := by
  induction x with
  | nil => rfl
  | cons c cs ih =>
      have hc : ¬ (c = '\n') := fun h => hx (h ▸ List.mem_cons_self c cs)
      have hcs : '\n' ∉ cs := fun h => hx (List.mem_cons_of_mem c h)
      rw [splitNl, if_neg hc, ih hcs]

/-- `splitNl` inverts `joinNl` on non-empty lists of newline-free lines. -/
theorem splitNl_joinNl (l : List Str) (hl : ∀ x ∈ l, '\n' ∉ x) (hne : l ≠ []) :
    splitNl (joinNl l) = l := by
  induction l with
  | nil => exact absurd rfl hne
  | cons x xs ih =>
      cases xs with
      | nil => exact splitNl_no_newline x (hl x (List.mem_cons_self x []))
      | cons y ys =>
          rw [joinNl, splitNl_append_cons x (hl x (List.mem_cons_self x (y :: ys)))]
          rw [ih (fun z hz => hl z (List.mem_cons_of_mem x hz)) (List.cons_ne_nil y ys)]

/-- A filter-map that never drops is a map. -/
theorem filterMap_congr_some {α β : Type} (f : α → Option β) (g : α → β) (l : List α)
    (h : ∀ a ∈ l, f a = some (g a)) : l.filterMap f = l.map g := by
  induction l with
  | nil => rfl
  | cons a l ih =>
      rw [List.filterMap_cons, h a (List.mem_cons_self a l), List.map_cons,
        ih (fun b hb => h b (List.mem_cons_of_mem a hb))]

/-- Parsing the joined serialized lines, before the final sort, recovers
exactly the serialized pairs in order. -/
theorem collect_serialized (ps : List (ℕ × Str))
    (h : ∀ p ∈ ps, p.1 < 6000000 ∧ p.2 ≠ [] ∧ '\n' ∉ p.2 ∧ trimChars p.2 = p.2) :
    (splitNl (joinNl (ps.map (fun p => serializeLine p.1 p.2)))).filterMap parseLrcLine
      = ps.map toLyricLine := by
  cases ps with
  | nil => rfl
  | cons p rest =>
      rw [splitNl_joinNl]
      · rw [List.filterMap_map]
        refine filterMap_congr_some _ _ _ ?_
        intro a ha
        obtain ⟨h1, h2, h3, h4⟩ := h a ha
        exact parseLrcLine_serializeLine a.1 h1 a.2 h2 h4
      · intro x hx
        rw [List.mem_map] at hx
        obtain ⟨a, ha, rfl⟩ := hx
        obtain ⟨h1, h2, h3, h4⟩ := h a ha
        exact serializeLine_no_newline a.1 h1 a.2 h3
      · simp

/-- C4 (amended): serializing pairs with distinct whole-millisecond times
below 100 minutes and non-empty, newline-free, trim-stable texts and
parsing the joined lines reproduces exactly the original lines, sorted
strictly ascending by time. -/
theorem parseLrc_roundTrip (ps : List (ℕ × Str))
    (hdist : ps.Pairwise (fun a b => a.1 ≠ b.1))
    (hconds : ∀ p ∈ ps, p.1 < 6000000 ∧ p.2 ≠ [] ∧ '\n' ∉ p.2 ∧ trimChars p.2 = p.2) :
    (parseLrc (joinNl (ps.map (fun p => serializeLine p.1 p.2)))).Perm
      (ps.map toLyricLine) ∧
    (parseLrc (joinNl (ps.map (fun p => serializeLine p.1 p.2)))).Pairwise
      (fun a b => a.time < b.time) := by
  have hcollect := collect_serialized ps hconds
  have hperm : (parseLrc (joinNl (ps.map (fun p => serializeLine p.1 p.2)))).Perm
      (ps.map toLyricLine) := by
    rw [parseLrc, hcollect]
    exact List.perm_insertionSort timeLE _
  refine ⟨hperm, ?_⟩
  have hsorted : List.Pairwise timeLE
      (parseLrc (joinNl (ps.map (fun p => serializeLine p.1 p.2)))) :=
    List.sorted_insertionSort timeLE _
  have hmapne : (ps.map toLyricLine).Pairwise (fun a b => a.time ≠ b.time) := by
    rw [List.pairwise_map]
    refine hdist.imp ?_
    intro a b hab
    simp only [toLyricLine]
    intro hc
    exact hab (Nat.cast_injective hc)
  have hne : (parseLrc (joinNl (ps.map (fun p => serializeLine p.1 p.2)))).Pairwise
      (fun a b => a.time ≠ b.time) :=
    (List.Perm.pairwise_iff (fun hxy => hxy.symm) hperm).mpr hmapne
  exact (hsorted.and hne).imp (fun hab => lt_of_le_of_ne hab.1 hab.2)

/-- C4 (witness): the round-trip theorem applied to the pairs
`[(12.34 s, "hi"), (5 s, "yo")]`. -/
theorem parseLrc_roundTrip_witness :
    List.Perm
      (parseLrc (joinNl ([((12340 : ℕ), "hi".toList), ((5000 : ℕ), "yo".toList)].map
        (fun p => serializeLine p.1 p.2))))
      ([((12340 : ℕ), "hi".toList), ((5000 : ℕ), "yo".toList)].map toLyricLine) ∧
    List.Pairwise (fun a b => a.time < b.time)
      (parseLrc (joinNl ([((12340 : ℕ), "hi".toList), ((5000 : ℕ), "yo".toList)].map
        (fun p => serializeLine p.1 p.2)))) :=
  parseLrc_roundTrip [(12340, "hi".toList), (5000, "yo".toList)] (by decide) (by decide)

/-- C4 (counterexample): the round-trip property as stated — only
requiring non-negative distinct times — fails: a pair with empty text is
dropped by the parser, a time of 100 minutes does not fit the two-digit
minute field of the tag regex, and a text with leading whitespace comes
back trimmed. -/
theorem parseLrc_roundTrip_counterexample :
    (parseLrc (joinNl [serializeLine 1000 []]) = [] ∧
      [toLyricLine (1000, [])] ≠ []) ∧
    (parseLrc (joinNl [serializeLine 6000000 "a".toList]) = [] ∧
      [toLyricLine (6000000, "a".toList)] ≠ []) ∧
    (parseLrc (joinNl [serializeLine 1000 " a".toList]) = [⟨1000, "a".toList⟩] ∧
      [toLyricLine (1000, " a".toList)] ≠ [⟨1000, "a".toList⟩]) := by
  decide

/-- C10 (witness): the flag theorem at the superseded-request outcome —
the flag is raised before resolution and stays true after an
`AbortError`. -/
theorem audioPlayer_play_flag_witness :
    (AudioPlayer.play PlayOutcome.abortError).1 = true ∧
    ((AudioPlayer.play PlayOutcome.abortError).2 = true ↔
      PlayOutcome.abortError ≠ PlayOutcome.otherError) :=
  audioPlayer_play_flag PlayOutcome.abortError
